import Mathlib

/-!
Verification of the feed-cli synchronization engine and query composition layer.

The Go sources under cmd/feed-cli/main.go, store/query.go, store/store.go and
feed/fetcher.go are shallowly embedded below.  Machine integers (int, int64,
time.Duration) are modelled as Int with explicit wrapping at 64 bits where
overflow is reachable.  Fallible Go functions returning (T, error) are
modelled as Option / Except.  The SQLite entries table of the store layer is
embedded as a relational model: rows in a list, the UNIQUE(feed_id, guid)
constraint as an explicit membership check, and SQL UPDATE as a map over the
rows.
-/

namespace FeedCli

/-- model.Feed (model/types.go).  LastUpdated is a nullable timestamp, modelled
as an optional Unix-nanosecond instant. -/
structure Feed where
  ID : Int
  URL : String
  Title : String
  Category : String
  LastUpdated : Option Int
  ETag : String
  LastModified : String
  deriving DecidableEq, Repr

/-- model.Entry (model/types.go).  Published (a time.Time) is modelled as a
Unix-nanosecond instant. -/
structure Entry where
  ID : Int
  FeedID : Int
  GUID : String
  Title : String
  Link : String
  Content : String
  Published : Int
  IsRead : Bool
  Tags : List String
  deriving DecidableEq, Repr

/-- The error kinds of the store layer named by the specification (section 7). -/
inductive StoreError where
  | ConstraintViolation
  | NotFound
  deriving DecidableEq, Repr

/- ### store/query.go -/

/-- Signed 64-bit two-complement wraparound, the semantics of Go int64
multiplication when it overflows. -/
def wrap64 (z : Int) : Int :=
  (z + 9223372036854775808) % 18446744073709551616 - 9223372036854775808

/-- Largest value of a Go int64 (and of int on 64-bit platforms). -/
def maxInt64 : Int := 9223372036854775807

/-- Smallest value of a Go int64. -/
def minInt64 : Int := -9223372036854775808

/-- time.Hour expressed in nanoseconds, the base unit of time.Duration. -/
def goHour : Int := 3600000000000

/-- An ASCII decimal digit, the characters matched by the regexp class d
in store/query.go durationPattern. -/
def isDigitChar (c : Char) : Bool :=
  48 ≤ c.toNat && c.toNat ≤ 57

/-- Value of a decimal digit string (most significant digit first). -/
def digitsToNat (cs : List Char) : Nat :=
  cs.foldl (fun a c => 10 * a + (c.toNat - 48)) 0

/-- strconv.Atoi restricted to all-digit input as produced by the duration
regexp: the numeric value when it fits in int64, an error (none) otherwise. -/
def atoi (cs : List Char) : Option Int :=
  if (digitsToNat cs : Int) ≤ maxInt64 then some (digitsToNat cs) else none

/-- The match of durationPattern (store/query.go line 11), the anchored regexp
of one-or-more digits followed by exactly one unit character in d, w, m, y.
Returns the digit group and the unit character on a match. -/
def matchDuration (s : String) : Option (List Char × Char) :=
  let cs := s.data
  let digits := cs.takeWhile isDigitChar
  let rest := cs.dropWhile isDigitChar
  if digits.isEmpty then none
  else
    match rest with
    | [u] => if u ∈ (['d', 'w', 'm', 'y'] : List Char) then some (digits, u) else none
    | _ => none

/-- The unit-dependent multiplication chain of ParseDuration
(store/query.go lines 40-52): time.Duration(num) * 24 * time.Hour and its
week, month, year variants, with every int64 multiplication wrapping. -/
def durOf (u : Char) (num : Int) : Option Int :=
  if u = 'd' then some (wrap64 (wrap64 (num * 24) * goHour))
  else if u = 'w' then some (wrap64 (wrap64 (wrap64 (num * 7) * 24) * goHour))
  else if u = 'm' then some (wrap64 (wrap64 (wrap64 (num * 30) * 24) * goHour))
  else if u = 'y' then some (wrap64 (wrap64 (wrap64 (num * 365) * 24) * goHour))
  else none

/-- store/query.go ParseDuration.  The result is a time.Duration, an int64
count of nanoseconds. -/
def ParseDuration (s : String) : Option Int :=
  if s = "" then none
  else
    match matchDuration s with
    | none => none
    | some (digits, u) =>
      match atoi digits with
      | none => none
      | some num => if num < 0 then none else durOf u num

/-- The exact nanosecond value of one unit: 24h for days, 7 days for weeks,
30 days for months, 365 days for years. -/
def unitNanos (u : Char) : Int :=
  if u = 'd' then 24 * goHour
  else if u = 'w' then 7 * 24 * goHour
  else if u = 'm' then 30 * 24 * goHour
  else if u = 'y' then 365 * 24 * goHour
  else 0

/-- store/query.go SinceToUnixTime.  time.Now is made explicit as the
parameter nowNs (Unix nanoseconds); Unix() truncates to seconds. -/
def SinceToUnixTime (nowNs : Int) (since : String) : Option Int :=
  match ParseDuration since with
  | none => none
  | some d => some ((nowNs - d).fdiv 1000000000)

/-- store.QueryOptions, the query descriptor.  The field set is the one
referenced by store/query.go: Limit, Offset, UnreadOnly, Tag and the optional
SinceTime lower bound (a nullable Unix-second timestamp). -/
structure QueryOptions where
  Limit : Int
  Offset : Int
  UnreadOnly : Bool
  Tag : String
  SinceTime : Option Int
  deriving DecidableEq, Repr

/-- store/query.go BuildQueryOptions.  The error case is collapsed to none;
time.Now is the explicit nowNs parameter. -/
def BuildQueryOptions (nowNs : Int) (limit offset : Int) (unread : Bool)
    (since tag : String) : Option QueryOptions :=
  let opts : QueryOptions :=
    { Limit := limit, Offset := offset, UnreadOnly := unread, Tag := tag, SinceTime := none }
  if since = "" then some opts
  else
    match SinceToUnixTime nowNs since with
    | none => none
    | some t => some { opts with SinceTime := some t }

/- ### feed/fetcher.go -/

/-- The fields of gofeed.Item read by convertItem: the native identifier,
title, link, full content, summary description, and the two nullable parsed
timestamps (Unix nanoseconds). -/
structure GofeedItem where
  GUID : String
  Title : String
  Link : String
  Content : String
  Description : String
  PublishedParsed : Option Int
  UpdatedParsed : Option Int
  deriving DecidableEq, Repr

/-- feed/fetcher.go convertItem.  time.Now is the explicit now parameter. -/
def convertItem (now : Int) (item : GofeedItem) : Entry :=
  { ID := 0
    FeedID := 0
    GUID := if item.GUID = "" then item.Link else item.GUID
    Title := item.Title
    Link := item.Link
    Content :=
      if item.Content ≠ "" then item.Content
      else if item.Description ≠ "" then item.Description
      else ""
    Published :=
      match item.PublishedParsed with
      | some t => t
      | none =>
        match item.UpdatedParsed with
        | some t => t
        | none => now
    IsRead := false
    Tags := [] }

/- ### cmd/feed-cli/main.go: updateFeeds -/

/-- One value of the per-source results map built by updateFeeds
(main.go lines 290-315): new_entries and total_entries on fetch success,
the error string on fetch failure. -/
inductive FeedReport where
  | ok (newEntries totalEntries : Nat)
  | fetchError (msg : String)
  deriving DecidableEq, Repr

/-- Go map assignment results[url] = v, on an association-list model of the
results map: replace the binding when the key is present, append otherwise. -/
def setResult (l : List (String × FeedReport)) (k : String) (v : FeedReport) :
    List (String × FeedReport) :=
  if l.any (fun p => decide (p.1 = k)) then
    l.map (fun p => if p.1 = k then (k, v) else p)
  else l ++ [(k, v)]

/-- Lookup in the results map. -/
def lookupResult : List (String × FeedReport) → String → Option FeedReport
  | [], _ => none
  | p :: tl, k => if p.1 = k then some p.2 else lookupResult tl k

/-- One iteration of the entry-saving loop of updateFeeds (main.go lines
300-307): set entry.FeedID, call SaveEntry, skip the entry on any error,
count it as new on success.  The store is the threaded state of type sigma;
SaveEntry is the abstract save capability. -/
def saveStep {σ ε : Type} (save : σ → Entry → Except ε σ) (fid : Int)
    (p : σ × Nat) (e : Entry) : σ × Nat :=
  match save p.1 { e with FeedID := fid } with
  | .error _ => p
  | .ok s => (s, p.2 + 1)

/-- The entry-saving loop of updateFeeds: fold saveStep over the fetched
entries starting from newEntries = 0. -/
def saveEntries {σ ε : Type} (save : σ → Entry → Except ε σ) (fid : Int)
    (st : σ) (es : List Entry) : σ × Nat :=
  es.foldl (saveStep save fid) (st, 0)

/-- The aggregate state updateFeeds accumulates across per-feed tasks: the
shared store, the results map and the running total_new_entries counter.
Updates to results and totalNewEntries are serialized through a mutex in the
source; the model presents one serialization of the completed tasks. -/
structure UpdateState (σ : Type) where
  store : σ
  results : List (String × FeedReport)
  totalNewEntries : Nat

/-- The body of one per-feed task of updateFeeds (main.go lines 281-316):
fetch the feed URL; on failure record the error under the feed URL and stop;
on success persist every entry through saveEntries and record the new and
total counts, adding the new count to the grand total. -/
def processFeed {σ : Type} {ε : Type} (fetch : Feed → Except String (List Entry))
    (save : σ → Entry → Except ε σ) (st : UpdateState σ) (f : Feed) :
    UpdateState σ :=
  match fetch f with
  | .error e => { st with results := setResult st.results f.URL (.fetchError e) }
  | .ok entries =>
    let r := saveEntries save f.ID st.store entries
    { store := r.1
      results := setResult st.results f.URL (.ok r.2 entries.length)
      totalNewEntries := st.totalNewEntries + r.2 }

/-- updateFeeds over a resolved working set of feeds, starting from an empty
results map and a zero grand total (main.go lines 272-320). -/
def updateFeeds {σ : Type} {ε : Type} (fetch : Feed → Except String (List Entry))
    (save : σ → Entry → Except ε σ) (store0 : σ) (feeds : List Feed) :
    UpdateState σ :=
  feeds.foldl (processFeed fetch save) ⟨store0, [], 0⟩

/-- The new-entries count a report contributes to the grand total. -/
def reportNew : FeedReport → Nat
  | .ok n _ => n
  | .fetchError _ => 0

/-- Sum of the new-entries counts over a results map. -/
def sumNew (l : List (String × FeedReport)) : Nat :=
  (l.map (fun p => reportNew p.2)).sum

/- ### store/store.go: the entries table -/

/-- One row of the entries table (store.go createSchema): the store-assigned
rowid, the owning feed, the natural identity key guid, the content columns,
the publication instant in Unix seconds, and the read flag stored as an
integer.  The table carries UNIQUE(feed_id, guid). -/
structure EntryRow where
  id : Int
  feed_id : Int
  guid : String
  title : String
  link : String
  content : String
  published : Int
  is_read : Int
  deriving DecidableEq, Repr

/-- store.go boolToInt: SQLite has no BOOLEAN type. -/
def boolToInt (b : Bool) : Int := if b then 1 else 0

/-- The entries table of one installation together with the next
AUTOINCREMENT rowid. -/
structure EntryStore where
  rows : List EntryRow
  nextID : Int
  deriving DecidableEq, Repr

/-- An empty entries table; rowids start at 1. -/
def emptyStore : EntryStore := ⟨[], 1⟩

/-- The row an Entry is stored as under a given rowid: the column list of
the INSERT and UPDATE statements of store.go SaveEntry, with the published
instant truncated to Unix seconds and the read flag through boolToInt. -/
def entryRowOf (id : Int) (e : Entry) : EntryRow :=
  ⟨id, e.FeedID, e.GUID, e.Title, e.Link, e.Content,
    e.Published.fdiv 1000000000, boolToInt e.IsRead⟩

/-- True when some row of the entries table carries the given
(feed_id, guid) pair, the key of the UNIQUE(feed_id, guid) constraint. -/
def hasEntryKey (st : EntryStore) (fid : Int) (guid : String) : Bool :=
  st.rows.any (fun r => decide (r.feed_id = fid ∧ r.guid = guid))

/-- Number of rows of the entries table carrying the given
(feed_id, guid) pair. -/
def countEntryKey (st : EntryStore) (fid : Int) (guid : String) : Nat :=
  st.rows.countP (fun r => decide (r.feed_id = fid ∧ r.guid = guid))

/-- store.go SaveEntry.  An entry with ID 0 is inserted and assigned the new
rowid; the INSERT is rejected with the UNIQUE(feed_id, guid) constraint
violation when the pair already exists.  Otherwise the row with that id is
rewritten in place (UPDATE ... WHERE id = ?): an id matching no row succeeds
as a no-op, and an update whose new (feed_id, guid) pair collides with a
different row is rejected by the same UNIQUE constraint. -/
def SaveEntry (st : EntryStore) (e : Entry) : Except StoreError EntryStore :=
  if e.ID = 0 then
    if hasEntryKey st e.FeedID e.GUID then .error .ConstraintViolation
    else .ok ⟨st.rows ++ [entryRowOf st.nextID e], st.nextID + 1⟩
  else
    if st.rows.any (fun r => decide (r.id = e.ID)) then
      if st.rows.any (fun r =>
          decide (¬ r.id = e.ID ∧ r.feed_id = e.FeedID ∧ r.guid = e.GUID)) then
        .error .ConstraintViolation
      else
        .ok ⟨st.rows.map (fun r => if r.id = e.ID then entryRowOf e.ID e else r),
          st.nextID⟩
    else .ok st

/-- store.go MarkEntryRead: a bare UPDATE of the is_read column by rowid
with no rows-affected check, so an id matching no row still succeeds. -/
def MarkEntryRead (st : EntryStore) (id : Int) (read : Bool) :
    Except StoreError EntryStore :=
  .ok ⟨st.rows.map (fun r =>
    if r.id = id then { r with is_read := boolToInt read } else r), st.nextID⟩

/- ### cmd/feed-cli/main.go: markRead and markAllRead -/

/-- Unicode white space as skipped by the fmt scanner before a numeric verb. -/
def isSpaceChar (c : Char) : Bool :=
  c = ' ' || c = '\t' || c = '\n' || c = '\r' || c = '\x0b' || c = '\x0c'

/-- The behaviour of fmt.Sscanf with the single verb for a base-10 integer
(main.go line 399): skip leading white space, read an optional sign and a
nonempty run of digits, ignore any trailing text, fail when no digit is
found or the value leaves the int64 range. -/
def parseEntryID (s : String) : Option Int :=
  let cs := s.data.dropWhile isSpaceChar
  let signed : Bool × List Char :=
    match cs with
    | '-' :: tl => (true, tl)
    | '+' :: tl => (false, tl)
    | _ => (false, cs)
  let digits := signed.2.takeWhile isDigitChar
  if digits.isEmpty then none
  else
    let v : Int := if signed.1 then -(digitsToNat digits : Int) else (digitsToNat digits : Int)
    if minInt64 ≤ v ∧ v ≤ maxInt64 then some v else none

/-- One iteration of the mark-read loop (main.go lines 397-407): skip an
argument that does not scan as a numeric identifier, skip an identifier whose
store update errors, otherwise count the entry as marked. -/
def markReadStep {σ ε : Type} (mark : σ → Int → Except ε σ)
    (p : σ × Nat) (a : String) : σ × Nat :=
  match parseEntryID a with
  | none => p
  | some id =>
    match mark p.1 id with
    | .error _ => p
    | .ok s => (s, p.2 + 1)

/-- The markRead command body over its argument list: fold markReadStep
starting from a zero marked counter.  The command itself never returns an
error once at least one argument is present. -/
def markRead {σ ε : Type} (mark : σ → Int → Except ε σ) (st : σ)
    (args : List String) : σ × Nat :=
  args.foldl (markReadStep mark) (st, 0)

/-- Number of mark calls of the markRead loop that succeed, along the store
states the loop actually threads. -/
def countMarkReadSuccesses {σ ε : Type} (mark : σ → Int → Except ε σ) :
    σ → List String → Nat
  | _, [] => 0
  | st, a :: tl =>
    match parseEntryID a with
    | none => countMarkReadSuccesses mark st tl
    | some id =>
      match mark st id with
      | .error _ => countMarkReadSuccesses mark st tl
      | .ok s => countMarkReadSuccesses mark s tl + 1

/-- One iteration of the mark-all-read loop (main.go lines 429-431): call the
store update and discard its result, keeping the prior store on error. -/
def markAllStep {σ ε : Type} (mark : σ → Int → Except ε σ) (s : σ) (e : Entry) : σ :=
  match mark s e.ID with
  | .ok s1 => s1
  | .error _ => s

/-- The markAllRead command body (main.go lines 414-436): query the unread
snapshot, mark each snapshot entry individually discarding errors, and report
the snapshot length as marked_read.  The query and update capabilities of the
missing store layer are the getEntries and mark parameters. -/
def markAllRead {σ ε : Type} (getEntries : σ → List Entry)
    (mark : σ → Int → Except ε σ) (st : σ) : σ × Nat :=
  let entries := getEntries st
  (entries.foldl (markAllStep mark) st, entries.length)

/-- Number of mark calls of the mark-all-read loop that succeed, along the
store states the loop actually threads. -/
def countMarkSuccesses {σ ε : Type} (mark : σ → Int → Except ε σ) :
    σ → List Entry → Nat
  | _, [] => 0
  | st, e :: tl =>
    match mark st e.ID with
    | .error _ => countMarkSuccesses mark st tl
    | .ok s => countMarkSuccesses mark s tl + 1

/-- True when some mark call of the mark-all-read loop fails, along the store
states the loop actually threads. -/
def anyMarkFails {σ ε : Type} (mark : σ → Int → Except ε σ) :
    σ → List Entry → Bool
  | _, [] => false
  | st, e :: tl =>
    match mark st e.ID with
    | .error _ => true
    | .ok s => anyMarkFails mark s tl

/- ### The admission gate of updateFeeds (main.go lines 275-296) -/

/-- The capacity of the buffered semaphore channel of updateFeeds
(main.go line 277). -/
def semCapacity : Nat := 50

/-- Phase of one per-feed task: not yet admitted, holding a semaphore slot
while fetching and persisting, or finished with its slot released. -/
inductive TaskPhase where
  | pending
  | fetching
  | finished
  deriving DecidableEq, Repr

/-- The concurrent state of one updateFeeds invocation: the phase of every
dispatched task and the number of semaphore slots currently held. -/
structure EngineState where
  tasks : List TaskPhase
  held : Nat
  deriving DecidableEq, Repr

/-- Number of tasks currently in their fetch section. -/
def countFetching (ts : List TaskPhase) : Nat :=
  ts.countP (fun t => decide (t = TaskPhase.fetching))

/-- The two state transitions of a task: acquire a semaphore slot (blocked
unless a slot is free, the send on the full buffered channel) and enter the
fetch section, or leave the fetch section releasing the slot. -/
inductive EngineStep : EngineState → EngineState → Prop where
  | acquire (s : EngineState) (i : Nat)
      (hp : s.tasks.get? i = some TaskPhase.pending)
      (hcap : s.held < semCapacity) :
      EngineStep s ⟨s.tasks.set i TaskPhase.fetching, s.held + 1⟩
  | release (s : EngineState) (i : Nat)
      (hf : s.tasks.get? i = some TaskPhase.fetching) :
      EngineStep s ⟨s.tasks.set i TaskPhase.finished, s.held - 1⟩

/-- The initial state of a sync over n dispatched tasks: every task pending,
no slot held. -/
def initEngine (n : Nat) : EngineState :=
  ⟨List.replicate n TaskPhase.pending, 0⟩

/-- States an updateFeeds invocation over n tasks can reach. -/
def EngineReachable (n : Nat) (s : EngineState) : Prop :=
  Relation.ReflTransGen EngineStep (initEngine n) s

/- ### Helper lemmas -/

lemma wrap64_eq_of_bounds (z : Int) (h1 : minInt64 ≤ z) (h2 : z ≤ maxInt64) :
    wrap64 z = z := by
  unfold wrap64
  unfold minInt64 at h1
  unfold maxInt64 at h2
  have h3 : 0 ≤ z + 9223372036854775808 := by omega
  have h4 : z + 9223372036854775808 < 18446744073709551616 := by omega
  rw [Int.emod_eq_of_lt h3 h4]
  omega

lemma wrapmul_chain2 (n a b : Int) (hn : 0 ≤ n) (ha : 1 ≤ a) (hb : 1 ≤ b)
    (h : n * (a * b) ≤ maxInt64) :
    wrap64 (wrap64 (n * a) * b) = n * (a * b) := by
  have h1 : 0 ≤ n * a := mul_nonneg hn (by linarith)
  have h2 : n * a ≤ n * (a * b) := by
    have hab : a ≤ a * b := le_mul_of_one_le_right (by linarith) hb
    exact mul_le_mul_of_nonneg_left hab hn
  have e1 : wrap64 (n * a) = n * a :=
    wrap64_eq_of_bounds _ (le_trans (by norm_num [minInt64]) h1) (le_trans h2 h)
  rw [e1, ← mul_assoc] at *
  have h3 : 0 ≤ n * a * b := mul_nonneg h1 (by linarith)
  exact wrap64_eq_of_bounds _ (le_trans (by norm_num [minInt64]) h3) h

lemma wrapmul_chain3 (n a b c : Int) (hn : 0 ≤ n) (ha : 1 ≤ a) (hb : 1 ≤ b)
    (hc : 1 ≤ c) (h : n * (a * b * c) ≤ maxInt64) :
    wrap64 (wrap64 (wrap64 (n * a) * b) * c) = n * (a * b * c) := by
  have hab : (0 : Int) ≤ a * b := by positivity
  have h2 : n * (a * b) ≤ n * (a * b * c) := by
    have habc : a * b ≤ a * b * c := le_mul_of_one_le_right hab hc
    exact mul_le_mul_of_nonneg_left habc hn
  have e1 : wrap64 (wrap64 (n * a) * b) = n * (a * b) :=
    wrapmul_chain2 n a b hn ha hb (le_trans h2 h)
  rw [e1]
  have h3 : 0 ≤ n * (a * b) := mul_nonneg hn hab
  have e2 : n * (a * b) * c = n * (a * b * c) := by ring
  rw [e2] at *
  have h4 : 0 ≤ n * (a * b * c) := by rw [← e2]; positivity
  exact wrap64_eq_of_bounds _ (le_trans (by norm_num [minInt64]) h4) h

lemma takeWhile_all_append (p : Char → Bool) (u : Char) (hu : p u = false) :
    ∀ ds : List Char, (∀ c ∈ ds, p c = true) →
      (ds ++ [u]).takeWhile p = ds ∧ (ds ++ [u]).dropWhile p = [u] := by
  intro ds
  induction ds with
  | nil => intro _; simp [List.takeWhile_cons, List.dropWhile_cons, hu]
  | cons c tl ih =>
    intro h
    have hc : p c = true := h c (by simp)
    have htl := ih (fun x hx => h x (by simp [hx]))
    simp [List.takeWhile_cons, List.dropWhile_cons, hc, htl.1, htl.2]

lemma unit_not_digit (u : Char) (hu : u ∈ (['d', 'w', 'm', 'y'] : List Char)) :
    isDigitChar u = false := by
  have h : u = 'd' ∨ u = 'w' ∨ u = 'm' ∨ u = 'y' := by simpa using hu
  rcases h with rfl | rfl | rfl | rfl <;> decide

lemma matchDuration_of_shape (s : String) (ds : List Char) (u : Char)
    (hdata : s.data = ds ++ [u]) (hne : ds ≠ [])
    (hdig : ∀ c ∈ ds, isDigitChar c = true)
    (hu : u ∈ (['d', 'w', 'm', 'y'] : List Char)) :
    matchDuration s = some (ds, u) := by
  have hsplit := takeWhile_all_append isDigitChar u (unit_not_digit u hu) ds hdig
  have hemp : ds.isEmpty = false := by
    cases ds with
    | nil => exact absurd rfl hne
    | cons a l => rfl
  unfold matchDuration
  rw [hdata]
  simp only [hsplit.1, hsplit.2, hemp]
  simp [hu]

/- ### C5: ParseDuration -/

/-- C5 counterexample: the claim maps every string of digits followed by a
unit to the mathematical duration, but the Go multiplication is int64 and
wraps: 106752 days exceed the int64 nanosecond range, so ParseDuration
returns a wrapped negative duration instead of 106752 times 24h. -/
theorem ParseDuration_overflow_counterexample :
    ParseDuration "106752d" = some (-9223371273709551616) ∧
    ¬ ParseDuration "106752d" = some (106752 * (24 * goHour)) := by
  constructor
  · decide
  · decide

/-- C5 (amended): a string of one-or-more digits followed by a unit in
d, w, m, y parses successfully exactly when the number fits in int64, and
the value is the unit product computed in wrapping 64-bit nanosecond
arithmetic (durOf); whenever the mathematical product n times the unit in
nanoseconds fits in int64 the result equals that product, so 7d is 7 times
24h, 2w is 14 times 24h, 3m is 90 times 24h and 1y is 365 times 24h; every
other input fails: a successful parse implies the digits-then-unit shape
with the number in int64 range, hence missing number, missing or unknown
unit, negative number, unit-only, number-only and empty inputs all error. -/
theorem ParseDuration_amended :
    (∀ (s : String) (ds : List Char) (u : Char),
        s.data = ds ++ [u] → ds ≠ [] → (∀ c ∈ ds, isDigitChar c = true) →
        u ∈ (['d', 'w', 'm', 'y'] : List Char) →
        ParseDuration s =
          if (digitsToNat ds : Int) ≤ maxInt64 then durOf u (digitsToNat ds) else none)
    ∧ (∀ (s : String) (v : Int), ParseDuration s = some v →
        ∃ ds u, s.data = ds ++ [u] ∧ ds ≠ [] ∧ (∀ c ∈ ds, isDigitChar c = true) ∧
          u ∈ (['d', 'w', 'm', 'y'] : List Char) ∧ (digitsToNat ds : Int) ≤ maxInt64 ∧
          durOf u (digitsToNat ds) = some v)
    ∧ (∀ (u : Char) (n : Int), u ∈ (['d', 'w', 'm', 'y'] : List Char) → 0 ≤ n →
        n * unitNanos u ≤ maxInt64 → durOf u n = some (n * unitNanos u)) := by
  refine ⟨?_, ?_, ?_⟩
  · intro s ds u hdata hne hdig hu
    have hs : s ≠ "" := by
      intro h
      rw [h] at hdata
      exact absurd hdata.symm (by simp)
    rw [ParseDuration, if_neg hs, matchDuration_of_shape s ds u hdata hne hdig hu]
    by_cases hle : (digitsToNat ds : Int) ≤ maxInt64
    · have hnn : ¬ ((digitsToNat ds : Int) < 0) := by omega
      simp [atoi, hle, hnn]
    · simp [atoi, hle]
  · intro s v h
    by_cases hs : s = ""
    · rw [hs] at h; simp [ParseDuration] at h
    · rw [ParseDuration, if_neg hs] at h
      rcases hm : matchDuration s with _ | ⟨ds, u⟩
      · rw [hm] at h; simp at h
      · rw [hm] at h
        -- invert the regexp match
        have hmd := hm
        unfold matchDuration at hmd
        by_cases hemp : (s.data.takeWhile isDigitChar).isEmpty
        · simp [hemp] at hmd
        · rcases hr : s.data.dropWhile isDigitChar with _ | ⟨u0, tl⟩
          · simp [hemp, hr] at hmd
          · cases tl with
            | cons b l => simp [hemp, hr] at hmd
            | nil =>
              by_cases hu0 : u0 ∈ (['d', 'w', 'm', 'y'] : List Char)
              · simp only [hemp, hr, if_false, Bool.false_eq_true, if_pos hu0] at hmd
                have hds : ds = s.data.takeWhile isDigitChar := by
                  simp at hmd; exact hmd.1.symm
                have huu : u = u0 := by
                  simp at hmd; exact hmd.2.symm
                have hdata : s.data = ds ++ [u] := by
                  rw [hds, huu, ← hr]
                  exact (@List.takeWhile_append_dropWhile _ isDigitChar s.data).symm
                have hne : ds ≠ [] := by
                  intro hnil
                  apply hemp
                  rw [← hds, hnil]
                  rfl
                have hdig : ∀ c ∈ ds, isDigitChar c = true := by
                  intro c hc
                  rw [hds] at hc
                  exact List.mem_takeWhile_imp hc
                have h2 : (match atoi ds with
                    | none => none
                    | some num => if num < 0 then none else durOf u num) = some v := h
                rcases hA : atoi ds with _ | num
                · rw [hA] at h2; simp at h2
                · rw [hA] at h2
                  have h3 : (if num < 0 then none else durOf u num) = some v := h2
                  have hle : (digitsToNat ds : Int) ≤ maxInt64 ∧ num = (digitsToNat ds : Int) := by
                    unfold atoi at hA
                    by_cases hq : (digitsToNat ds : Int) ≤ maxInt64
                    · rw [if_pos hq] at hA
                      refine ⟨hq, ?_⟩
                      injection hA with hA2
                      exact hA2.symm
                    · rw [if_neg hq] at hA; exact absurd hA (by simp)
                  obtain ⟨hle1, hnum⟩ := hle
                  have hnn : ¬ (num < 0) := by omega
                  rw [if_neg hnn] at h3
                  refine ⟨ds, u, hdata, hne, hdig, huu ▸ hu0, hle1, ?_⟩
                  rw [← hnum]
                  exact h3
              · simp [hemp, hr, hu0] at hmd
  · intro u n hu hn hbound
    have h : u = 'd' ∨ u = 'w' ∨ u = 'm' ∨ u = 'y' := by simpa using hu
    have hg : (1 : Int) ≤ goHour := by norm_num [goHour]
    rcases h with rfl | rfl | rfl | rfl
    · have hb : n * (24 * goHour) ≤ maxInt64 := by
        rw [show unitNanos 'd' = 24 * goHour from rfl] at hbound; exact hbound
      show some (wrap64 (wrap64 (n * 24) * goHour)) = some (n * (24 * goHour))
      rw [wrapmul_chain2 n 24 goHour hn (by norm_num) hg hb]
    · have hb : n * (7 * 24 * goHour) ≤ maxInt64 := by
        rw [show unitNanos 'w' = 7 * 24 * goHour from rfl] at hbound; exact hbound
      show some (wrap64 (wrap64 (wrap64 (n * 7) * 24) * goHour)) = some (n * (7 * 24 * goHour))
      rw [wrapmul_chain3 n 7 24 goHour hn (by norm_num) (by norm_num) hg hb]
    · have hb : n * (30 * 24 * goHour) ≤ maxInt64 := by
        rw [show unitNanos 'm' = 30 * 24 * goHour from rfl] at hbound; exact hbound
      show some (wrap64 (wrap64 (wrap64 (n * 30) * 24) * goHour)) = some (n * (30 * 24 * goHour))
      rw [wrapmul_chain3 n 30 24 goHour hn (by norm_num) (by norm_num) hg hb]
    · have hb : n * (365 * 24 * goHour) ≤ maxInt64 := by
        rw [show unitNanos 'y' = 365 * 24 * goHour from rfl] at hbound; exact hbound
      show some (wrap64 (wrap64 (wrap64 (n * 365) * 24) * goHour)) = some (n * (365 * 24 * goHour))
      rw [wrapmul_chain3 n 365 24 goHour hn (by norm_num) (by norm_num) hg hb]

/-- Witness for the amended C5 theorem at concrete inputs. -/
theorem ParseDuration_amended_witness :
    ParseDuration "7d" = some 604800000000000 ∧
    durOf 'w' 2 = some (2 * unitNanos 'w') := by
  constructor
  · have h := ParseDuration_amended.1 "7d" ['7'] 'd' (by decide) (by decide)
      (by decide) (by decide)
    rw [h]; decide
  · exact ParseDuration_amended.2.2 'w' 2 (by decide) (by decide) (by decide)

/- ### C6: BuildQueryOptions -/

/-- C6: with an empty sinceToken BuildQueryOptions succeeds with no
lower-bound timestamp, and with a valid non-empty token it succeeds with the
lower bound fixed at composition time to now minus the parsed duration
(truncated to Unix seconds); Limit, Offset, UnreadOnly and Tag pass through
unchanged in both cases. -/
theorem BuildQueryOptions_since_bound (nowNs limit offset : Int) (unread : Bool)
    (since tag : String) :
    (BuildQueryOptions nowNs limit offset unread "" tag =
      some ⟨limit, offset, unread, tag, none⟩)
    ∧ (∀ d, ParseDuration since = some d →
        BuildQueryOptions nowNs limit offset unread since tag =
          some ⟨limit, offset, unread, tag, some ((nowNs - d).fdiv 1000000000)⟩) := by
  constructor
  · simp [BuildQueryOptions]
  · intro d hd
    have hs : since ≠ "" := by
      intro h
      rw [h] at hd
      simp [ParseDuration] at hd
    rw [BuildQueryOptions, if_neg hs]
    rw [SinceToUnixTime, hd]

/-- Witness for C6 at concrete inputs. -/
theorem BuildQueryOptions_since_bound_witness :
    BuildQueryOptions 1000000000000000000 50 10 true "7d" "go" =
      some ⟨50, 10, true, "go", some 999395200⟩ := by
  have h := (BuildQueryOptions_since_bound 1000000000000000000 50 10 true "7d" "go").2
    604800000000000 (by decide)
  rw [h]
  decide

/- ### C7 and C8: convertItem -/

/-- C7: the normalizer keys every entry by the native identifier when one is
present and by the link otherwise, so two items with empty identifiers and
different links receive different natural keys, and saving both through the
store keeps both rows. -/
theorem convertItem_natural_key (now : Int) :
    (∀ item : GofeedItem, item.GUID ≠ "" → (convertItem now item).GUID = item.GUID)
    ∧ (∀ item : GofeedItem, item.GUID = "" → (convertItem now item).GUID = item.Link)
    ∧ (∀ i j : GofeedItem, i.GUID = "" → j.GUID = "" → i.Link ≠ j.Link →
        (convertItem now i).GUID ≠ (convertItem now j).GUID)
    ∧ (∀ i j : GofeedItem, i.GUID = "" → j.GUID = "" → i.Link ≠ j.Link →
        ∃ st1 st2, SaveEntry emptyStore (convertItem now i) = .ok st1 ∧
          SaveEntry st1 (convertItem now j) = .ok st2 ∧ st2.rows.length = 2) := by
  refine ⟨?_, ?_, ?_, ?_⟩
  · intro item h
    simp [convertItem, h]
  · intro item h
    simp [convertItem, h]
  · intro i j hi hj hne
    simp [convertItem, hi, hj]
    exact hne
  · intro i j hi hj hne
    refine ⟨⟨[entryRowOf 1 (convertItem now i)], 2⟩,
      ⟨[entryRowOf 1 (convertItem now i), entryRowOf 2 (convertItem now j)], 3⟩,
      rfl, ?_, rfl⟩
    have hkey : hasEntryKey ⟨[entryRowOf 1 (convertItem now i)], 2⟩
        (convertItem now j).FeedID (convertItem now j).GUID = false := by
      simp only [hasEntryKey, List.any_cons, List.any_nil, Bool.or_false,
        decide_eq_false_iff_not]
      intro hx
      apply hne
      have h1 : (entryRowOf 1 (convertItem now i)).guid = i.Link := by
        simp [entryRowOf, convertItem, hi]
      have h2 : (convertItem now j).GUID = j.Link := by
        simp [convertItem, hj]
      rw [h1, h2] at hx
      exact hx.2
    rw [SaveEntry, if_pos (show (convertItem now j).ID = 0 from rfl),
      if_neg (by simp [hkey])]
    rfl

/-- A parsed item with no native identifier, used to witness the link
fallback. -/
def itemW1 : GofeedItem := ⟨"", "a", "https://x/1", "", "", none, none⟩

/-- A second identifier-less parsed item with a different link. -/
def itemW2 : GofeedItem := ⟨"", "b", "https://x/2", "", "", none, none⟩

/-- Witness for C7 at concrete items. -/
theorem convertItem_natural_key_witness :
    (convertItem 0 itemW1).GUID = "https://x/1" ∧
    (convertItem 0 itemW1).GUID ≠ (convertItem 0 itemW2).GUID := by
  have h := convertItem_natural_key 0
  exact ⟨(h.2.1 itemW1 rfl).trans rfl,
    h.2.2.1 itemW1 itemW2 rfl rfl (by decide)⟩

/-- C8: when a parsed item carries no usable publication timestamp the
normalizer substitutes the time of normalization, so every produced entry
has a publication timestamp; a published or updated timestamp is used when
present, in that order. -/
theorem convertItem_timestamp_fallback (now : Int) :
    (∀ item : GofeedItem, item.PublishedParsed = none → item.UpdatedParsed = none →
        (convertItem now item).Published = now)
    ∧ (∀ item : GofeedItem, ∀ t, item.PublishedParsed = some t →
        (convertItem now item).Published = t)
    ∧ (∀ item : GofeedItem, ∀ t, item.PublishedParsed = none →
        item.UpdatedParsed = some t → (convertItem now item).Published = t) := by
  refine ⟨?_, ?_, ?_⟩
  · intro item h1 h2
    simp [convertItem, h1, h2]
  · intro item t h1
    simp [convertItem, h1]
  · intro item t h1 h2
    simp [convertItem, h1, h2]

/-- Witness for C8 at a concrete item without timestamps. -/
theorem convertItem_timestamp_fallback_witness :
    (convertItem 987654321 itemW1).Published = 987654321 :=
  (convertItem_timestamp_fallback 987654321).1 itemW1 rfl rfl

/- ### Association-list lemmas for the results map -/

lemma lookupResult_map_set (k : String) (v : FeedReport) :
    ∀ l : List (String × FeedReport), l.any (fun p => decide (p.1 = k)) = true →
      lookupResult (l.map (fun p => if p.1 = k then (k, v) else p)) k = some v := by
  intro l
  induction l with
  | nil => intro h; simp at h
  | cons q tl ih =>
    intro h
    by_cases hq : q.1 = k
    · simp only [List.map_cons, if_pos hq]
      unfold lookupResult
      rw [if_pos rfl]
    · simp only [List.map_cons, if_neg hq]
      unfold lookupResult
      rw [if_neg hq]
      apply ih
      simpa [List.any_cons, hq] using h

lemma lookupResult_append_self (k : String) (v : FeedReport) :
    ∀ l : List (String × FeedReport), (∀ p ∈ l, p.1 ≠ k) →
      lookupResult (l ++ [(k, v)]) k = some v := by
  intro l
  induction l with
  | nil =>
    intro _
    rw [List.nil_append]
    unfold lookupResult
    rw [if_pos rfl]
  | cons q tl ih =>
    intro h
    rw [List.cons_append]
    unfold lookupResult
    rw [if_neg (h q (by simp))]
    exact ih (fun p hp => h p (List.mem_cons_of_mem q hp))

lemma setResult_lookup_self (l : List (String × FeedReport)) (k : String)
    (v : FeedReport) : lookupResult (setResult l k v) k = some v := by
  unfold setResult
  by_cases hmem : l.any (fun p => decide (p.1 = k)) = true
  · rw [if_pos hmem]
    exact lookupResult_map_set k v l hmem
  · rw [if_neg hmem]
    apply lookupResult_append_self k v l
    intro p hp hpk
    exact hmem (List.any_eq_true.mpr ⟨p, hp, by simp [hpk]⟩)

/- ### C2: per-item store errors are absorbed -/

lemma saveEntries_shift {σ ε : Type} (save : σ → Entry → Except ε σ) (fid : Int) :
    ∀ (es : List Entry) (st : σ) (n : Nat),
      es.foldl (saveStep save fid) (st, n) =
        ((es.foldl (saveStep save fid) (st, 0)).1,
          n + (es.foldl (saveStep save fid) (st, 0)).2) := by
  intro es
  induction es with
  | nil => intro st n; simp
  | cons e tl ih =>
    intro st n
    cases h : save st { e with FeedID := fid } with
    | error err =>
      simp only [List.foldl_cons, saveStep, h]
      exact ih st n
    | ok s1 =>
      simp only [List.foldl_cons, saveStep, h]
      rw [ih s1 (n + 1), ih s1 1]
      rw [Nat.add_assoc]

/-- C2: a failing SaveEntry call during sync is absorbed locally.  The
failing item contributes zero to the new-item count and the loop continues
with the remaining items of the same source; a succeeding item contributes
exactly one; and whenever the fetch succeeded the task records a success
report for its source, so no per-item store error is surfaced to the caller
as a sync failure. -/
theorem saveEntry_failures_absorbed {σ ε : Type} (save : σ → Entry → Except ε σ) :
    (∀ (fid : Int) (st : σ) (e : Entry) (rest : List Entry) (err : ε),
        save st { e with FeedID := fid } = .error err →
        saveEntries save fid st (e :: rest) = saveEntries save fid st rest)
    ∧ (∀ (fid : Int) (st : σ) (e : Entry) (rest : List Entry) (st1 : σ),
        save st { e with FeedID := fid } = .ok st1 →
        (saveEntries save fid st (e :: rest)).2 = (saveEntries save fid st1 rest).2 + 1)
    ∧ (∀ (fetch : Feed → Except String (List Entry)) (f : Feed)
          (ust : UpdateState σ) (es : List Entry),
        fetch f = .ok es → ∃ k,
          lookupResult (processFeed fetch save ust f).results f.URL =
            some (.ok k es.length)) := by
  refine ⟨?_, ?_, ?_⟩
  · intro fid st e rest err herr
    unfold saveEntries
    simp only [List.foldl_cons, saveStep, herr]
  · intro fid st e rest st1 hok
    unfold saveEntries
    simp only [List.foldl_cons, saveStep, hok]
    rw [saveEntries_shift save fid rest st1 1]
    rw [Nat.add_comm]
  · intro fetch f ust es hf
    refine ⟨(saveEntries save f.ID ust.store es).2, ?_⟩
    unfold processFeed
    rw [hf]
    exact setResult_lookup_self ust.results f.URL _

/-- A feed fixture for witnesses. -/
def feedA : Feed := ⟨1, "https://a.example/rss", "A", "", none, "", ""⟩

/-- A second feed fixture with a distinct URL. -/
def feedB : Feed := ⟨2, "https://b.example/rss", "B", "", none, "", ""⟩

/-- An entry fixture. -/
def entryE1 : Entry := ⟨0, 0, "g1", "t1", "l1", "c1", 100, false, []⟩

/-- A second entry fixture with a distinct natural key. -/
def entryE2 : Entry := ⟨0, 0, "g2", "t2", "l2", "c2", 200, false, []⟩

/-- A save oracle over a counter store that rejects the natural key g2. -/
def saveW : Nat → Entry → Except StoreError Nat :=
  fun s e => if e.GUID = "g2" then .error .ConstraintViolation else .ok (s + 1)

/-- A fetch oracle succeeding on feedA with two entries and failing on any
other URL. -/
def fetchW : Feed → Except String (List Entry) :=
  fun f => if f.URL = "https://a.example/rss" then .ok [entryE1, entryE2]
    else .error "transport"

/-- Witness for C2 at concrete inputs. -/
theorem saveEntry_failures_absorbed_witness :
    saveEntries saveW 1 0 [entryE2, entryE1] = saveEntries saveW 1 0 [entryE1] ∧
    (saveEntries saveW 1 0 (entryE1 :: [entryE2])).2 =
      (saveEntries saveW 1 1 [entryE2]).2 + 1 ∧
    lookupResult (processFeed fetchW saveW ⟨0, [], 0⟩ feedA).results feedA.URL =
      some (.ok 1 2) := by
  have h := saveEntry_failures_absorbed saveW
  refine ⟨h.1 1 0 entryE2 [entryE1] .ConstraintViolation rfl,
    h.2.1 1 0 entryE1 [entryE2] 1 rfl, by decide⟩

/- ### C9: markAllRead reports the snapshot size -/

lemma countMarkSuccesses_le {σ ε : Type} (mark : σ → Int → Except ε σ) :
    ∀ (es : List Entry) (st : σ), countMarkSuccesses mark st es ≤ es.length := by
  intro es
  induction es with
  | nil => intro st; simp [countMarkSuccesses]
  | cons e tl ih =>
    intro st
    unfold countMarkSuccesses
    cases h : mark st e.ID with
    | error err =>
      calc countMarkSuccesses mark st tl ≤ tl.length := ih st
        _ ≤ (e :: tl).length := by simp
    | ok s1 =>
      have := ih s1
      simp only [List.length_cons]
      omega

lemma countMarkSuccesses_lt_of_fail {σ ε : Type} (mark : σ → Int → Except ε σ) :
    ∀ (es : List Entry) (st : σ), anyMarkFails mark st es = true →
      countMarkSuccesses mark st es < es.length := by
  intro es
  induction es with
  | nil => intro st h; simp [anyMarkFails] at h
  | cons e tl ih =>
    intro st h
    unfold anyMarkFails at h
    unfold countMarkSuccesses
    cases hm : mark st e.ID with
    | error err =>
      rw [hm] at h
      have := countMarkSuccesses_le mark tl st
      simp only [List.length_cons]
      omega
    | ok s1 =>
      rw [hm] at h
      have := ih s1 h
      simp only [List.length_cons]
      omega

/-- C9: mark-all-read reports as marked_read the length of the unread
snapshot it queried, not the number of store updates that succeeded: per-item
errors are discarded, and whenever at least one update call fails the number
of successful updates (an upper bound on the entries whose read flag actually
changed) is strictly below the reported count. -/
theorem markAllRead_reports_snapshot_size {σ ε : Type} (getEntries : σ → List Entry)
    (mark : σ → Int → Except ε σ) (st : σ) :
    (markAllRead getEntries mark st).2 = (getEntries st).length
    ∧ countMarkSuccesses mark st (getEntries st) ≤ (getEntries st).length
    ∧ (anyMarkFails mark st (getEntries st) = true →
        countMarkSuccesses mark st (getEntries st) < (getEntries st).length) := by
  refine ⟨rfl, countMarkSuccesses_le mark (getEntries st) st, ?_⟩
  intro h
  exact countMarkSuccesses_lt_of_fail mark (getEntries st) st h

/-- A snapshot oracle for the C9 witness: three unread entries. -/
def getEntriesW : Nat → List Entry :=
  fun _ => [⟨1, 1, "g1", "", "", "", 1, false, []⟩,
    ⟨2, 1, "g2", "", "", "", 2, false, []⟩,
    ⟨3, 1, "g3", "", "", "", 3, false, []⟩]

/-- A mark oracle for the C9 witness that fails on identifier 2. -/
def markW : Nat → Int → Except StoreError Nat :=
  fun s id => if id = 2 then .error .NotFound else .ok (s + 1)

/-- Witness for C9: the report says 3 although only 2 updates succeeded. -/
theorem markAllRead_reports_snapshot_size_witness :
    (markAllRead getEntriesW markW 0).2 = 3 ∧
    countMarkSuccesses markW 0 (getEntriesW 0) < 3 ∧
    countMarkSuccesses markW 0 (getEntriesW 0) = 2 := by
  have h := markAllRead_reports_snapshot_size getEntriesW markW 0
  refine ⟨h.1, ?_, by decide⟩
  have h3 := h.2.2 (by decide)
  simpa using h3

/- ### C10: markRead skips bad arguments and counts successes -/

lemma markRead_shift {σ ε : Type} (mark : σ → Int → Except ε σ) :
    ∀ (args : List String) (st : σ) (n : Nat),
      args.foldl (markReadStep mark) (st, n) =
        ((args.foldl (markReadStep mark) (st, 0)).1,
          n + (args.foldl (markReadStep mark) (st, 0)).2) := by
  intro args
  induction args with
  | nil => intro st n; simp
  | cons a tl ih =>
    intro st n
    cases hp : parseEntryID a with
    | none =>
      simp only [List.foldl_cons, markReadStep, hp]
      exact ih st n
    | some id =>
      cases hm : mark st id with
      | error err =>
        simp only [List.foldl_cons, markReadStep, hp, hm]
        exact ih st n
      | ok s1 =>
        simp only [List.foldl_cons, markReadStep, hp, hm]
        rw [ih s1 (n + 1), ih s1 1]
        rw [Nat.add_assoc]

/-- C10: given its argument list, mark-read is total (the model returns a
report for every input); an argument that does not scan as a numeric
identifier is silently skipped, an identifier whose store update errors is
silently skipped, and the reported marked_read equals exactly the number of
update calls that succeeded. -/
theorem markRead_skips_and_counts {σ ε : Type} (mark : σ → Int → Except ε σ) :
    (∀ (st : σ) (args : List String) (a : String), parseEntryID a = none →
        markRead mark st (a :: args) = markRead mark st args)
    ∧ (∀ (st : σ) (args : List String) (a : String) (id : Int) (err : ε),
        parseEntryID a = some id → mark st id = .error err →
        markRead mark st (a :: args) = markRead mark st args)
    ∧ (∀ (st : σ) (args : List String),
        (markRead mark st args).2 = countMarkReadSuccesses mark st args) := by
  refine ⟨?_, ?_, ?_⟩
  · intro st args a hp
    unfold markRead
    simp only [List.foldl_cons, markReadStep, hp]
  · intro st args a id err hp hm
    unfold markRead
    simp only [List.foldl_cons, markReadStep, hp, hm]
  · intro st args
    induction args generalizing st with
    | nil => rfl
    | cons a tl ih =>
      unfold markRead at ih ⊢
      unfold countMarkReadSuccesses
      cases hp : parseEntryID a with
      | none =>
        simp only [List.foldl_cons, markReadStep, hp]
        exact ih st
      | some id =>
        cases hm : mark st id with
        | error err =>
          simp only [List.foldl_cons, markReadStep, hp, hm]
          exact ih st
        | ok s1 =>
          simp only [List.foldl_cons, markReadStep, hp, hm]
          rw [markRead_shift mark tl s1 1]
          rw [Nat.add_comm 1 _]
          rw [ih s1]

/-- Witness for C10: the unparseable argument and the failing identifier are
skipped and the count reflects the two successful updates. -/
theorem markRead_skips_and_counts_witness :
    markRead markW 0 ["abc", "5"] = markRead markW 0 ["5"] ∧
    markRead markW 0 ["2", "5"] = markRead markW 0 ["5"] ∧
    (markRead markW 0 ["abc", "5", "2", "7"]).2 =
      countMarkReadSuccesses markW 0 ["abc", "5", "2", "7"] ∧
    (markRead markW 0 ["abc", "5", "2", "7"]).2 = 2 := by
  have h := markRead_skips_and_counts markW
  refine ⟨h.1 0 ["5"] "abc" (by decide),
    h.2.1 0 ["5"] "2" 2 .NotFound (by decide) rfl,
    h.2.2 0 ["abc", "5", "2", "7"], by decide⟩

/- ### C3: the admission gate bounds in-flight fetches -/

lemma countP_set_balance (p : TaskPhase → Bool) :
    ∀ (ts : List TaskPhase) (i : Nat) (a b : TaskPhase),
      ts.get? i = some a →
      (ts.set i b).countP p + (if p a then 1 else 0) =
        ts.countP p + (if p b then 1 else 0) := by
  intro ts
  induction ts with
  | nil => intro i a b h; simp at h
  | cons c tl ih =>
    intro i a b h
    cases i with
    | zero =>
      rw [List.get?_cons_zero] at h
      injection h with h
      subst h
      rw [List.set_cons_zero, List.countP_cons, List.countP_cons]
      omega
    | succ m =>
      rw [List.get?_cons_succ] at h
      rw [List.set_cons_succ, List.countP_cons, List.countP_cons]
      have := ih m a b h
      omega

/-- The inductive invariant of the admission gate: the number of held
semaphore slots equals the number of tasks inside their fetch section and
never exceeds the channel capacity. -/
def EngineInv (s : EngineState) : Prop :=
  s.held = countFetching s.tasks ∧ s.held ≤ semCapacity

lemma engineStep_inv {s t : EngineState} (h : EngineStep s t) (hi : EngineInv s) :
    EngineInv t := by
  obtain ⟨hcount, hbound⟩ := hi
  unfold countFetching at hcount
  cases h with
  | acquire i hp hcap =>
    have hb : (s.tasks.set i TaskPhase.fetching).countP
          (fun t => decide (t = TaskPhase.fetching)) =
        s.tasks.countP (fun t => decide (t = TaskPhase.fetching)) + 1 := by
      have hbal := countP_set_balance (fun t => decide (t = TaskPhase.fetching))
        s.tasks i TaskPhase.pending TaskPhase.fetching hp
      simpa using hbal
    refine ⟨?_, ?_⟩
    · show s.held + 1 = countFetching (s.tasks.set i TaskPhase.fetching)
      unfold countFetching
      omega
    · show s.held + 1 ≤ semCapacity
      omega
  | release i hf =>
    have hb : (s.tasks.set i TaskPhase.finished).countP
          (fun t => decide (t = TaskPhase.fetching)) + 1 =
        s.tasks.countP (fun t => decide (t = TaskPhase.fetching)) := by
      have hbal := countP_set_balance (fun t => decide (t = TaskPhase.fetching))
        s.tasks i TaskPhase.fetching TaskPhase.finished hf
      simpa using hbal
    refine ⟨?_, ?_⟩
    · show s.held - 1 = countFetching (s.tasks.set i TaskPhase.finished)
      unfold countFetching
      omega
    · show s.held - 1 ≤ semCapacity
      omega

/-- C3: in every reachable state of a sync invocation, no matter how many
tasks were dispatched, at most semCapacity (50) fetches are in flight; a
task enters its fetch section only through the acquire transition, which is
enabled only while fewer than 50 slots are held, and releases its slot when
done. -/
theorem sync_inflight_bounded (n : Nat) (s : EngineState)
    (h : EngineReachable n s) : countFetching s.tasks ≤ semCapacity := by
  have hinv : EngineInv s := by
    induction h with
    | refl =>
      constructor
      · show (0 : Nat) = countFetching (initEngine n).tasks
        unfold countFetching initEngine
        rw [eq_comm, List.countP_eq_zero]
        intro a ha
        rw [List.eq_of_mem_replicate ha]
        simp
      · show (0 : Nat) ≤ semCapacity
        omega
    | tail hsteps hstep ih => exact engineStep_inv hstep ih
  obtain ⟨hcount, hbound⟩ := hinv
  omega

/-- Witness for C3: a state reached by admitting one of three tasks. -/
theorem sync_inflight_bounded_witness :
    countFetching ((⟨(initEngine 3).tasks.set 0 TaskPhase.fetching,
      (initEngine 3).held + 1⟩ : EngineState)).tasks ≤ semCapacity := by
  have hreach : EngineReachable 3
      ⟨(initEngine 3).tasks.set 0 TaskPhase.fetching, (initEngine 3).held + 1⟩ :=
    Relation.ReflTransGen.single
      (EngineStep.acquire (initEngine 3) 0 (by decide) (by decide))
  exact sync_inflight_bounded 3 _ hreach

/- ### C4: natural-key uniqueness in the store -/

lemma SaveEntry_key_mono {st st1 : EntryStore} {e : Entry} (he : e.ID = 0)
    (h : SaveEntry st e = .ok st1) (fid : Int) (g : String)
    (hk : hasEntryKey st fid g = true) : hasEntryKey st1 fid g = true := by
  unfold SaveEntry at h
  rw [if_pos he] at h
  by_cases hdup : hasEntryKey st e.FeedID e.GUID = true
  · rw [if_pos hdup] at h
    exact absurd h (by simp)
  · rw [if_neg hdup] at h
    injection h with h
    subst h
    unfold hasEntryKey at hk ⊢
    rw [List.any_append]
    rw [hk]
    rfl

lemma saveEntries_key_mono (fid : Int) (g : String) :
    ∀ (es : List Entry) (st : EntryStore), (∀ e ∈ es, e.ID = 0) →
      hasEntryKey st fid g = true →
      hasEntryKey (saveEntries SaveEntry fid st es).1 fid g = true := by
  intro es
  induction es with
  | nil => intro st _ hk; exact hk
  | cons e tl ih =>
    intro st hids hk
    have he0 : ({ e with FeedID := fid } : Entry).ID = 0 := hids e (by simp)
    unfold saveEntries
    rw [List.foldl_cons]
    cases hs : SaveEntry st { e with FeedID := fid } with
    | error err =>
      rw [show saveStep SaveEntry fid (st, 0) e = (st, 0) from by
        simp [saveStep, hs]]
      exact ih st (fun x hx => hids x (by simp [hx])) hk
    | ok st1 =>
      rw [show saveStep SaveEntry fid (st, 0) e = (st1, 1) from by
        simp [saveStep, hs]]
      rw [saveEntries_shift SaveEntry fid tl st1 1]
      exact ih st1 (fun x hx => hids x (by simp [hx]))
        (SaveEntry_key_mono he0 hs fid g hk)

lemma saveEntries_key_present (fid : Int) :
    ∀ (es : List Entry) (st : EntryStore), (∀ e ∈ es, e.ID = 0) →
      ∀ e ∈ es, hasEntryKey (saveEntries SaveEntry fid st es).1 fid e.GUID = true := by
  intro es
  induction es with
  | nil => intro st _ e he; simp at he
  | cons e0 tl ih =>
    intro st hids e he
    have he0 : ({ e0 with FeedID := fid } : Entry).ID = 0 := hids e0 (by simp)
    unfold saveEntries
    rw [List.foldl_cons]
    cases hs : SaveEntry st { e0 with FeedID := fid } with
    | error err =>
      rw [show saveStep SaveEntry fid (st, 0) e0 = (st, 0) from by
        simp [saveStep, hs]]
      have hdup : hasEntryKey st fid e0.GUID = true := by
        unfold SaveEntry at hs
        rw [if_pos he0] at hs
        by_cases hk : hasEntryKey st ({ e0 with FeedID := fid } : Entry).FeedID
            ({ e0 with FeedID := fid } : Entry).GUID = true
        · exact hk
        · rw [if_neg hk] at hs
          exact absurd hs (by simp)
      rcases List.mem_cons.mp he with rfl | he2
      · exact saveEntries_key_mono fid e.GUID tl st
          (fun x hx => hids x (by simp [hx])) hdup
      · exact ih st (fun x hx => hids x (by simp [hx])) e he2
    | ok st1 =>
      rw [show saveStep SaveEntry fid (st, 0) e0 = (st1, 1) from by
        simp [saveStep, hs]]
      rw [saveEntries_shift SaveEntry fid tl st1 1]
      have hk1 : hasEntryKey st1 fid e0.GUID = true := by
        unfold SaveEntry at hs
        rw [if_pos he0] at hs
        by_cases hk : hasEntryKey st ({ e0 with FeedID := fid } : Entry).FeedID
            ({ e0 with FeedID := fid } : Entry).GUID = true
        · rw [if_pos hk] at hs
          exact absurd hs (by simp)
        · rw [if_neg hk] at hs
          injection hs with hs
          subst hs
          unfold hasEntryKey
          rw [List.any_append]
          have hone : ([entryRowOf st.nextID ({ e0 with FeedID := fid } : Entry)]).any
              (fun r => decide (r.feed_id = fid ∧ r.guid = e0.GUID)) = true := by
            simp [entryRowOf]
          rw [hone]
          rw [Bool.or_true]
      rcases List.mem_cons.mp he with rfl | he2
      · exact saveEntries_key_mono fid e.GUID tl st1
          (fun x hx => hids x (by simp [hx])) hk1
      · exact ih st1 (fun x hx => hids x (by simp [hx])) e he2

lemma saveEntries_all_dup (fid : Int) :
    ∀ (es : List Entry) (st : EntryStore), (∀ e ∈ es, e.ID = 0) →
      (∀ e ∈ es, hasEntryKey st fid e.GUID = true) →
      saveEntries SaveEntry fid st es = (st, 0) := by
  intro es
  induction es with
  | nil => intro st _ _; rfl
  | cons e tl ih =>
    intro st hids hkeys
    have hcond : hasEntryKey st ({ e with FeedID := fid } : Entry).FeedID
        ({ e with FeedID := fid } : Entry).GUID = true := hkeys e (by simp)
    have hdup : SaveEntry st { e with FeedID := fid } = .error .ConstraintViolation := by
      unfold SaveEntry
      rw [if_pos (hids e (by simp)), if_pos hcond]
    unfold saveEntries
    rw [List.foldl_cons]
    rw [show saveStep SaveEntry fid (st, 0) e = (st, 0) from by
      simp [saveStep, hdup]]
    exact ih st (fun x hx => hids x (by simp [hx]))
      (fun x hx => hkeys x (by simp [hx]))

/-- C4: the store never holds two items with the same (source, natural key)
pair: an insert of a fresh key succeeds and leaves exactly one row with that
key, an insert of an existing key fails with ConstraintViolation, and
repeating the sync save loop over the same entry list against the store it
just produced persists zero new items and leaves the store unchanged. -/
theorem store_natural_key_unique :
    (∀ (st : EntryStore) (e : Entry), e.ID = 0 →
        hasEntryKey st e.FeedID e.GUID = false →
        ∃ st1, SaveEntry st e = .ok st1 ∧
          countEntryKey st1 e.FeedID e.GUID = 1 ∧
          st1.rows.length = st.rows.length + 1)
    ∧ (∀ (st : EntryStore) (e : Entry), e.ID = 0 →
        hasEntryKey st e.FeedID e.GUID = true →
        SaveEntry st e = .error .ConstraintViolation)
    ∧ (∀ (fid : Int) (st : EntryStore) (es : List Entry), (∀ e ∈ es, e.ID = 0) →
        saveEntries SaveEntry fid (saveEntries SaveEntry fid st es).1 es =
          ((saveEntries SaveEntry fid st es).1, 0)) := by
  refine ⟨?_, ?_, ?_⟩
  · intro st e he hk
    refine ⟨⟨st.rows ++ [entryRowOf st.nextID e], st.nextID + 1⟩, ?_, ?_, ?_⟩
    · unfold SaveEntry
      rw [if_pos he, if_neg (by rw [hk]; simp)]
    · unfold countEntryKey
      rw [List.countP_append]
      have hz : st.rows.countP
          (fun r => decide (r.feed_id = e.FeedID ∧ r.guid = e.GUID)) = 0 := by
        rw [List.countP_eq_zero]
        intro a ha hpa
        unfold hasEntryKey at hk
        rw [List.any_eq_false] at hk
        exact hk a ha hpa
      rw [hz]
      simp [entryRowOf]
    · simp
  · intro st e he hk
    unfold SaveEntry
    rw [if_pos he, if_pos hk]
  · intro fid st es hids
    exact saveEntries_all_dup fid es (saveEntries SaveEntry fid st es).1 hids
      (saveEntries_key_present fid es st hids)

/-- Witness for C4: a duplicate insert of the key g1 under source 5 fails,
and re-running the save loop over the two fixture entries against the store
the first run produced yields zero new items and the same store. -/
theorem store_natural_key_unique_witness :
    SaveEntry ⟨[⟨1, 5, "g1", "", "", "", 0, 0⟩], 2⟩
        ⟨0, 5, "g1", "x", "y", "z", 9, false, []⟩ =
      .error .ConstraintViolation ∧
    saveEntries SaveEntry 5 (saveEntries SaveEntry 5 emptyStore [entryE1, entryE2]).1
        [entryE1, entryE2] =
      ((saveEntries SaveEntry 5 emptyStore [entryE1, entryE2]).1, 0) := by
  have h := store_natural_key_unique
  exact ⟨h.2.1 ⟨[⟨1, 5, "g1", "", "", "", 0, 0⟩], 2⟩
      ⟨0, 5, "g1", "x", "y", "z", 9, false, []⟩ rfl (by decide),
    h.2.2 5 emptyStore [entryE1, entryE2] (by decide)⟩

/- ### C1: the aggregate report of updateFeeds -/

lemma setResult_fresh (l : List (String × FeedReport)) (k : String) (v : FeedReport)
    (h : ∀ p ∈ l, p.1 ≠ k) : setResult l k v = l ++ [(k, v)] := by
  have hany : ¬ (l.any (fun p => decide (p.1 = k)) = true) := by
    intro hc
    rw [List.any_eq_true] at hc
    obtain ⟨p, hp, hpk⟩ := hc
    exact h p hp (by simpa using hpk)
  unfold setResult
  rw [if_neg hany]

lemma lookupResult_append_ne (k k2 : String) (v : FeedReport) (hne : k ≠ k2) :
    ∀ l : List (String × FeedReport),
      lookupResult (l ++ [(k2, v)]) k = lookupResult l k := by
  intro l
  induction l with
  | nil =>
    rw [List.nil_append]
    unfold lookupResult
    rw [if_neg (fun hc => hne (Eq.symm hc))]
    rfl
  | cons q tl ih =>
    rw [List.cons_append]
    unfold lookupResult
    by_cases hq : q.1 = k
    · rw [if_pos hq, if_pos hq]
    · rw [if_neg hq, if_neg hq]
      exact ih

lemma lookupResult_map_ne (k k2 : String) (v : FeedReport) (hne : k ≠ k2) :
    ∀ l : List (String × FeedReport),
      lookupResult (l.map (fun p => if p.1 = k2 then (k2, v) else p)) k =
        lookupResult l k := by
  intro l
  induction l with
  | nil => rfl
  | cons q tl ih =>
    rw [List.map_cons]
    by_cases hq : q.1 = k2
    · rw [if_pos hq]
      unfold lookupResult
      rw [if_neg (fun hc => hne (Eq.symm hc)),
        if_neg (fun hc => hne (Eq.symm (hq.symm.trans hc)))]
      exact ih
    · rw [if_neg hq]
      unfold lookupResult
      by_cases hqk : q.1 = k
      · rw [if_pos hqk, if_pos hqk]
      · rw [if_neg hqk, if_neg hqk]
        exact ih

lemma setResult_lookup_ne (l : List (String × FeedReport)) (k k2 : String)
    (v : FeedReport) (hne : k ≠ k2) :
    lookupResult (setResult l k2 v) k = lookupResult l k := by
  unfold setResult
  by_cases hmem : l.any (fun p => decide (p.1 = k2)) = true
  · rw [if_pos hmem]
    exact lookupResult_map_ne k k2 v hne l
  · rw [if_neg hmem]
    exact lookupResult_append_ne k k2 v hne l

lemma sumNew_append (l1 l2 : List (String × FeedReport)) :
    sumNew (l1 ++ l2) = sumNew l1 + sumNew l2 := by
  unfold sumNew
  rw [List.map_append, List.sum_append]

lemma processFeed_results_fresh {σ ε : Type} (fetch : Feed → Except String (List Entry))
    (save : σ → Entry → Except ε σ) (st : UpdateState σ) (f : Feed)
    (hfresh : ∀ p ∈ st.results, p.1 ≠ f.URL) :
    ∃ rep : FeedReport,
      (processFeed fetch save st f).results = st.results ++ [(f.URL, rep)] ∧
      (processFeed fetch save st f).totalNewEntries =
        st.totalNewEntries + reportNew rep ∧
      (∀ msg, fetch f = .error msg → rep = .fetchError msg) ∧
      (∀ es, fetch f = .ok es →
        rep = .ok (saveEntries save f.ID st.store es).2 es.length) := by
  cases hf : fetch f with
  | error msg =>
    have hres : (processFeed fetch save st f).results =
        setResult st.results f.URL (.fetchError msg) := by
      unfold processFeed
      rw [hf]
    have htot : (processFeed fetch save st f).totalNewEntries =
        st.totalNewEntries := by
      unfold processFeed
      rw [hf]
    refine ⟨.fetchError msg, ?_, ?_, ?_, ?_⟩
    · rw [hres, setResult_fresh _ _ _ hfresh]
    · rw [htot]
      rfl
    · intro msg2 h2
      injection h2 with h2
      rw [h2]
    · intro es h2
      exact absurd h2 (by simp)
  | ok es0 =>
    have hres : (processFeed fetch save st f).results =
        setResult st.results f.URL
          (.ok (saveEntries save f.ID st.store es0).2 es0.length) := by
      unfold processFeed
      rw [hf]
    have htot : (processFeed fetch save st f).totalNewEntries =
        st.totalNewEntries + (saveEntries save f.ID st.store es0).2 := by
      unfold processFeed
      rw [hf]
    refine ⟨.ok (saveEntries save f.ID st.store es0).2 es0.length, ?_, ?_, ?_, ?_⟩
    · rw [hres, setResult_fresh _ _ _ hfresh]
    · rw [htot]
      rfl
    · intro msg h2
      exact absurd h2 (by simp)
    · intro es h2
      injection h2 with h2
      subst h2
      rfl

lemma updateFold_lookup_frozen {σ ε : Type} (fetch : Feed → Except String (List Entry))
    (save : σ → Entry → Except ε σ) (k : String) :
    ∀ (feeds : List Feed) (st : UpdateState σ), k ∉ feeds.map Feed.URL →
      lookupResult (feeds.foldl (processFeed fetch save) st).results k =
        lookupResult st.results k := by
  intro feeds
  induction feeds with
  | nil => intro st _; rfl
  | cons f tl ih =>
    intro st hk
    rw [List.foldl_cons]
    have hk1 : k ≠ f.URL := by
      intro h
      apply hk
      rw [List.map_cons]
      exact h ▸ List.mem_cons_self _ _
    have hk2 : k ∉ tl.map Feed.URL := by
      intro h
      apply hk
      rw [List.map_cons]
      exact List.mem_cons_of_mem _ h
    rw [ih (processFeed fetch save st f) hk2]
    cases hf : fetch f with
    | error msg =>
      have hres : (processFeed fetch save st f).results =
          setResult st.results f.URL (.fetchError msg) := by
        unfold processFeed
        rw [hf]
      rw [hres, setResult_lookup_ne st.results k f.URL _ hk1]
    | ok es =>
      have hres : (processFeed fetch save st f).results =
          setResult st.results f.URL
            (.ok (saveEntries save f.ID st.store es).2 es.length) := by
        unfold processFeed
        rw [hf]
      rw [hres, setResult_lookup_ne st.results k f.URL _ hk1]

lemma updateFeeds_fold_spec {σ ε : Type} (fetch : Feed → Except String (List Entry))
    (save : σ → Entry → Except ε σ) :
    ∀ (feeds : List Feed) (st : UpdateState σ),
      (feeds.map Feed.URL).Nodup →
      (∀ p ∈ st.results, p.1 ∉ feeds.map Feed.URL) →
      ((feeds.foldl (processFeed fetch save) st).results.map Prod.fst =
          st.results.map Prod.fst ++ feeds.map Feed.URL)
      ∧ (∀ f ∈ feeds, ∀ msg, fetch f = .error msg →
          lookupResult (feeds.foldl (processFeed fetch save) st).results f.URL =
            some (.fetchError msg))
      ∧ (∀ f ∈ feeds, ∀ es, fetch f = .ok es → ∃ n,
          lookupResult (feeds.foldl (processFeed fetch save) st).results f.URL =
            some (.ok n es.length))
      ∧ (st.totalNewEntries = sumNew st.results →
          (feeds.foldl (processFeed fetch save) st).totalNewEntries =
            sumNew (feeds.foldl (processFeed fetch save) st).results) := by
  intro feeds
  induction feeds with
  | nil =>
    intro st _ _
    refine ⟨by simp, by simp, by simp, fun h => h⟩
  | cons f tl ih =>
    intro st hnd hdisj
    have hfresh : ∀ p ∈ st.results, p.1 ≠ f.URL := by
      intro p hp h
      exact hdisj p hp (by rw [List.map_cons]; exact h ▸ List.mem_cons_self _ _)
    obtain ⟨rep, hres, htot, herr, hok⟩ :=
      processFeed_results_fresh fetch save st f hfresh
    have hndtl : (tl.map Feed.URL).Nodup := by
      rw [List.map_cons] at hnd
      exact hnd.of_cons
    have hfurl : f.URL ∉ tl.map Feed.URL := by
      rw [List.map_cons] at hnd
      exact (List.nodup_cons.mp hnd).1
    have hdisj2 : ∀ p ∈ (processFeed fetch save st f).results,
        p.1 ∉ tl.map Feed.URL := by
      intro p hp
      rw [hres] at hp
      rcases List.mem_append.mp hp with hp1 | hp2
      · intro hmem
        exact hdisj p hp1 (by rw [List.map_cons]; exact List.mem_cons_of_mem _ hmem)
      · have hp3 : p = (f.URL, rep) := by simpa using hp2
        rw [hp3]
        exact hfurl
    obtain ⟨ihkeys, iherr, ihok, ihtot⟩ :=
      ih (processFeed fetch save st f) hndtl hdisj2
    rw [List.foldl_cons]
    refine ⟨?_, ?_, ?_, ?_⟩
    · rw [ihkeys, hres, List.map_append, List.map_cons]
      simp
    · intro g hg msg hmsg
      rcases List.mem_cons.mp hg with rfl | hg2
      · rw [updateFold_lookup_frozen fetch save g.URL tl _ hfurl]
        rw [hres, herr msg hmsg]
        exact lookupResult_append_self g.URL _ st.results hfresh
      · exact iherr g hg2 msg hmsg
    · intro g hg es hes
      rcases List.mem_cons.mp hg with rfl | hg2
      · refine ⟨(saveEntries save g.ID st.store es).2, ?_⟩
        rw [updateFold_lookup_frozen fetch save g.URL tl _ hfurl]
        rw [hres, hok es hes]
        exact lookupResult_append_self g.URL _ st.results hfresh
      · exact ihok g hg2 es hes
    · intro hinv
      apply ihtot
      rw [htot, hres, sumNew_append, hinv]
      unfold sumNew
      simp

/-- C1: over a working set of feeds with pairwise distinct URLs, the report
of updateFeeds carries exactly one entry per feed keyed by its URL (the key
list of the results map is exactly the URL list); a feed whose fetch failed
is reported with its error and a feed whose fetch succeeded is reported with
its new and total entry counts, independently of every other feed; and
total_new_entries equals the sum of the new-entry counts over the report,
to which failure entries contribute zero. -/
theorem updateFeeds_aggregate_report {σ ε : Type}
    (fetch : Feed → Except String (List Entry)) (save : σ → Entry → Except ε σ)
    (store0 : σ) (feeds : List Feed) (hnd : (feeds.map Feed.URL).Nodup) :
    ((updateFeeds fetch save store0 feeds).results.map Prod.fst =
        feeds.map Feed.URL)
    ∧ (∀ f ∈ feeds, ∀ msg, fetch f = .error msg →
        lookupResult (updateFeeds fetch save store0 feeds).results f.URL =
          some (.fetchError msg))
    ∧ (∀ f ∈ feeds, ∀ es, fetch f = .ok es → ∃ n,
        lookupResult (updateFeeds fetch save store0 feeds).results f.URL =
          some (.ok n es.length))
    ∧ (updateFeeds fetch save store0 feeds).totalNewEntries =
        sumNew (updateFeeds fetch save store0 feeds).results := by
  have h := updateFeeds_fold_spec fetch save feeds ⟨store0, [], 0⟩ hnd (by simp)
  exact ⟨by simpa using h.1, h.2.1, h.2.2.1, h.2.2.2 rfl⟩

/-- Witness for C1: two feeds, one failing fetch; the report keys are the two
URLs, the failing feed keeps its error entry, and the grand total is the sum
over the report. -/
theorem updateFeeds_aggregate_report_witness :
    (updateFeeds fetchW saveW 0 [feedA, feedB]).results.map Prod.fst =
      [feedA.URL, feedB.URL] ∧
    lookupResult (updateFeeds fetchW saveW 0 [feedA, feedB]).results feedB.URL =
      some (.fetchError "transport") ∧
    (updateFeeds fetchW saveW 0 [feedA, feedB]).totalNewEntries =
      sumNew (updateFeeds fetchW saveW 0 [feedA, feedB]).results := by
  have h := updateFeeds_aggregate_report fetchW saveW 0 [feedA, feedB] (by decide)
  exact ⟨by simpa using h.1, h.2.1 feedB (by simp) "transport" rfl, h.2.2.2⟩

end FeedCli
